import Mathlib

/-!
Verification of the GhostDrive ingestion/index/distribution pipeline.

Shallow embedding of the Rust sources:
  * `crates/indexer/src/db.rs`    — the dual-table durable index (`FileIndex`);
  * `crates/indexer/src/watcher.rs` — the debounced filesystem watcher;
  * `crates/network/src/node.rs`  — the content-addressed node (`StreamNode`);
  * `crates/host/src/daemon.rs`   — the orchestrating daemon (`HostDaemon`);
  * `crates/core/src/types.rs`    — value types and the share-ticket codec.

Modelling conventions:
  * Filesystem paths are lists of components (`FPath`); the Rust code keys the
    store by `path.to_string_lossy()`, which is injective on the canonical
    paths the daemon uses, so we key directly by the path value.
  * `redb` tables inside one write transaction become a single pure state
    transition on an `IndexState` record of two maps; `bincode`
    encode/decode of a record is the identity on the modelled record.
  * Machine integers (`u64` sizes, timestamps) are `Nat`; byte values are
    `Nat` with explicit `< 256` well-formedness where it matters.
  * Clock instants (`tokio::time::Instant`) are `Nat` milliseconds.
-/

namespace GhostDrive

/-- A filesystem path, as its list of components.  `file_name()` is the last
component. -/
abbrev FPath := List String

/-- `MediaHash` (crates/core/src/types.rs) wraps the hex string of a BLAKE3
digest; equality is string equality, so we model it as the string itself. -/
abbrev MediaHash := String

/-- `FileMetadata` (crates/core/src/types.rs): the record stored in the
`files` table. -/
structure FileMetadata where
  path : FPath
  hash : MediaHash
  size : Nat
  mime_type : String
  created_at : Nat
deriving DecidableEq, Repr

/-- The state of the `FileIndex` database (crates/indexer/src/db.rs): the
`files` table (path → metadata) and the `hash_index` table (hash → path),
both inside one transactional store. -/
structure IndexState where
  files : FPath → Option FileMetadata
  hash_index : MediaHash → Option FPath

theorem IndexState.ext2 {s t : IndexState} (hf : s.files = t.files)
    (hh : s.hash_index = t.hash_index) : s = t := by
  cases s; cases t; simp_all

/-- The empty index (freshly opened database). -/
def emptyIndex : IndexState where
  files := fun _ => none
  hash_index := fun _ => none

/-- `FileIndex::upsert_file`: one transaction writes
`files[path] = metadata` and `hash_index[hash] = path`.  The old hash's
`hash_index` entry is NOT touched. -/
def upsert_file (m : FileMetadata) (s : IndexState) : IndexState where
  files := fun p => if p = m.path then some m else s.files p
  hash_index := fun h => if h = m.hash then some m.path else s.hash_index h

/-- `FileIndex::get_by_path`: direct lookup in the `files` table. -/
def get_by_path (s : IndexState) (p : FPath) : Option FileMetadata :=
  s.files p

/-- `FileIndex::get_by_hash`: resolve `hash_index[hash]` to a path, then look
that path up in `files`; `none` if either lookup misses. -/
def get_by_hash (s : IndexState) (h : MediaHash) : Option FileMetadata :=
  match s.hash_index h with
  | some p => s.files p
  | none => none

/-- `FileIndex::remove_file`: in one transaction, read `files[path]` to learn
the stored hash, delete `files[path]`, and — when a record was present —
delete `hash_index[that hash]` (unconditionally, even if it now points to a
different path). -/
def remove_file (s : IndexState) (p : FPath) : IndexState :=
  match s.files p with
  | some m =>
      { files := fun q => if q = p then none else s.files q
        hash_index := fun h => if h = m.hash then none else s.hash_index h }
  | none =>
      { files := fun q => if q = p then none else s.files q
        hash_index := s.hash_index }

/-- C1. For every metadata record `m` and every prior index state, after
`upsert(m)` both `get_by_path(m.path)` and `get_by_hash(m.hash)` return `m`. -/
theorem upsert_then_get (m : FileMetadata) (s : IndexState) :
    get_by_path (upsert_file m s) m.path = some m ∧
    get_by_hash (upsert_file m s) m.hash = some m := by
  constructor
  · simp [get_by_path, upsert_file]
  · simp [get_by_hash, upsert_file]

/-- C2. If path `p` has a stored record `m`, then after `remove(p)` the
`files` entry at `p` and the `hash_index` entry at `m.hash` are both deleted
(in the one transition remove performs), so `get_by_path p` and
`get_by_hash m.hash` both return none; and when `p` is not indexed,
`remove(p)` leaves the state unchanged. -/
theorem remove_deletes_both (s : IndexState) (p : FPath) (m : FileMetadata) :
    (s.files p = some m →
      (remove_file s p).files p = none ∧
      (remove_file s p).hash_index m.hash = none ∧
      get_by_path (remove_file s p) p = none ∧
      get_by_hash (remove_file s p) m.hash = none) ∧
    (s.files p = none → remove_file s p = s) := by
  constructor
  · intro hm
    have hrw : remove_file s p =
        { files := fun q => if q = p then none else s.files q
          hash_index := fun h => if h = m.hash then none else s.hash_index h } := by
      simp [remove_file, hm]
    refine ⟨?_, ?_, ?_, ?_⟩
    · simp [hrw]
    · simp [hrw]
    · simp [get_by_path, hrw]
    · simp [get_by_hash, hrw]
  · intro hn
    have hrw : remove_file s p =
        { files := fun q => if q = p then none else s.files q
          hash_index := s.hash_index } := by
      simp [remove_file, hn]
    rw [hrw]
    refine IndexState.ext2 ?_ rfl
    funext q
    by_cases hq : q = p
    · subst hq; simp [hn]
    · simp [hq]

/-- Witness for C2 at a concrete state: one record at path `["a"]`. -/
theorem remove_deletes_both_witness :
    let m : FileMetadata := ⟨["a"], "h1", 3, "text/plain", 0⟩
    let s := upsert_file m emptyIndex
    (remove_file s ["a"]).files ["a"] = none ∧
    (remove_file s ["a"]).hash_index "h1" = none ∧
    get_by_path (remove_file s ["a"]) ["a"] = none ∧
    get_by_hash (remove_file s ["a"]) "h1" = none :=
  (remove_deletes_both (upsert_file ⟨["a"], "h1", 3, "text/plain", 0⟩ emptyIndex)
    ["a"] ⟨["a"], "h1", 3, "text/plain", 0⟩).1 (by simp [upsert_file, emptyIndex])

/-- C3. Upserting `m1` then `m2` at the same path with a different hash leaves
the `hash_index` entry for the old hash `m1.hash` dangling: it still maps
`m1.hash` to the path, and `get_by_hash m1.hash` does not return none. -/
theorem upsert_leaves_old_hash_dangling (m1 m2 : FileMetadata) (s : IndexState)
    (hpath : m1.path = m2.path) (hhash : m1.hash ≠ m2.hash) :
    (upsert_file m2 (upsert_file m1 s)).hash_index m1.hash = some m2.path ∧
    get_by_hash (upsert_file m2 (upsert_file m1 s)) m1.hash ≠ none := by
  have h1 : (upsert_file m2 (upsert_file m1 s)).hash_index m1.hash = some m2.path := by
    simp [upsert_file, hhash, hpath]
  refine ⟨h1, ?_⟩
  simp only [get_by_hash, h1]
  simp [upsert_file]

/-- Witness for C3: same path `["a"]`, hashes `"h1"` then `"h2"`. -/
theorem upsert_leaves_old_hash_dangling_witness :
    (upsert_file ⟨["a"], "h2", 4, "text/plain", 1⟩
      (upsert_file ⟨["a"], "h1", 3, "text/plain", 0⟩ emptyIndex)).hash_index "h1" =
      some ["a"] ∧
    get_by_hash (upsert_file ⟨["a"], "h2", 4, "text/plain", 1⟩
      (upsert_file ⟨["a"], "h1", 3, "text/plain", 0⟩ emptyIndex)) "h1" ≠ none :=
  upsert_leaves_old_hash_dangling ⟨["a"], "h1", 3, "text/plain", 0⟩
    ⟨["a"], "h2", 4, "text/plain", 1⟩ emptyIndex rfl (by decide)

/-- C10. Two records at distinct paths sharing hash `h`: after upserting both,
`remove(m1.path)` unconditionally deletes the `hash_index` entry for `h`, so
`get_by_hash h` returns none even though `get_by_path m2.path` still returns
`m2`: the surviving record loses its reverse lookup. -/
theorem remove_steals_shared_hash (m1 m2 : FileMetadata) (s : IndexState)
    (hpath : m1.path ≠ m2.path) (hhash : m1.hash = m2.hash) :
    get_by_hash (remove_file (upsert_file m2 (upsert_file m1 s)) m1.path) m1.hash
      = none ∧
    get_by_path (remove_file (upsert_file m2 (upsert_file m1 s)) m1.path) m2.path
      = some m2 := by
  set s2 := upsert_file m2 (upsert_file m1 s) with hs2
  have hfiles : s2.files m1.path = some m1 := by
    simp [hs2, upsert_file, hpath]
  have hrw : remove_file s2 m1.path =
      { files := fun q => if q = m1.path then none else s2.files q
        hash_index := fun h => if h = m1.hash then none else s2.hash_index h } := by
    simp [remove_file, hfiles]
  constructor
  · simp [get_by_hash, hrw]
  · simp only [get_by_path, hrw]
    have : m2.path ≠ m1.path := fun h => hpath h.symm
    simp [this, hs2, upsert_file]

/-- Witness for C10: paths `["a"]`, `["b"]`, shared hash `"h"`. -/
theorem remove_steals_shared_hash_witness :
    get_by_hash (remove_file (upsert_file ⟨["b"], "h", 4, "text/plain", 1⟩
      (upsert_file ⟨["a"], "h", 3, "text/plain", 0⟩ emptyIndex)) ["a"]) "h" = none ∧
    get_by_path (remove_file (upsert_file ⟨["b"], "h", 4, "text/plain", 1⟩
      (upsert_file ⟨["a"], "h", 3, "text/plain", 0⟩ emptyIndex)) ["a"]) ["b"] =
      some ⟨["b"], "h", 4, "text/plain", 1⟩ :=
  remove_steals_shared_hash ⟨["a"], "h", 3, "text/plain", 0⟩
    ⟨["b"], "h", 4, "text/plain", 1⟩ emptyIndex (by decide) rfl

/-! ## Watcher (crates/indexer/src/watcher.rs)

The run loop keeps a pending map `path → Instant` (deadline).  Filesystem
events are handled by `handle_fs_event`; a 200ms ticker drives
`process_pending`, which dispatches every entry whose deadline has elapsed
to a hashing unit.  Instants are `Nat` milliseconds. -/

/-- The debounce window: `debounce_duration = Duration::from_millis(500)`. -/
def debounce_ms : Nat := 500

/-- The pending map `HashMap<PathBuf, Instant>`, as an association list with
at most one live entry per path (the first match wins on lookup; inserts
replace). -/
abbrev PendingMap := List (FPath × Nat)

/-- Lookup in the pending map. -/
def plookup (p : FPath) : PendingMap → Option Nat
  | [] => none
  | e :: m => if e.1 = p then some e.2 else plookup p m

/-- `HashMap::insert`: the new binding replaces any existing one for the key. -/
def pinsert (p : FPath) (d : Nat) (m : PendingMap) : PendingMap :=
  (p, d) :: m.filter (fun e => decide (e.1 ≠ p))

/-- `HashMap::remove`. -/
def perase (p : FPath) (m : PendingMap) : PendingMap :=
  m.filter (fun e => decide (e.1 ≠ p))

/-- `FileWatcher::should_ignore`: true when the path's file name (its last
component) begins with `'.'` (Rust `s.starts_with('.')` is a first-character
test). -/
def should_ignore (p : FPath) : Bool :=
  match p.getLast? with
  | some s =>
      match s.data with
      | c :: _ => c = '.'
      | [] => false
  | none => false

/-- The `notify::EventKind` groups the watcher distinguishes. -/
inductive EventKind where
  | create
  | modify
  | remove
  | other
deriving DecidableEq, Repr

/-- The watcher-visible state: the pending debounce map and the shared index. -/
structure WatcherState where
  pending : PendingMap
  index : IndexState

/-- The per-path body of `FileWatcher::handle_fs_event`: ignored paths are
skipped before the kind is examined; create/modify schedule
`pending[path] = now + 500ms`; remove drops the path from the pending map and
synchronously calls `remove_file`; other kinds do nothing. -/
def handle_path (kind : EventKind) (now : Nat) (st : WatcherState) (p : FPath) :
    WatcherState :=
  if should_ignore p then st
  else
    match kind with
    | .create => { st with pending := pinsert p (now + debounce_ms) st.pending }
    | .modify => { st with pending := pinsert p (now + debounce_ms) st.pending }
    | .remove => { pending := perase p st.pending, index := remove_file st.index p }
    | .other => st

/-- `FileWatcher::handle_fs_event`: the per-path body folded over
`event.paths`. -/
def handle_fs_event (kind : EventKind) (paths : List FPath) (now : Nat)
    (st : WatcherState) : WatcherState :=
  paths.foldl (handle_path kind now) st

/-- One `ScanTick` of `FileWatcher::process_pending` at instant `now`:
every entry whose deadline has elapsed (`now >= deadline`) is removed from
the pending map and dispatched.  Returns (remaining map, dispatched
entries). -/
def tick (now : Nat) (m : PendingMap) : PendingMap × PendingMap :=
  (m.filter (fun e => decide (now < e.2)), m.filter (fun e => decide (e.2 ≤ now)))

/-- A sequence of ticks at the given instants; the second component is the
dispatch log: every (path, deadline) entry that was dispatched to a
hash-and-upsert unit, in order. -/
def runTicks : List Nat → PendingMap → PendingMap × PendingMap
  | [], m => (m, [])
  | u :: us, m =>
      let t := tick u m
      let r := runTicks us t.1
      (r.1, t.2 ++ r.2)

/-- Handling N create/modify events for one path `p` at instants `ts`. -/
def handle_burst (kind : EventKind) (p : FPath) (ts : List Nat)
    (st : WatcherState) : WatcherState :=
  ts.foldl (fun acc t => handle_fs_event kind [p] t acc) st

/-! ### Watcher lemmas -/

theorem plookup_perase (p : FPath) (m : PendingMap) :
    plookup p (perase p m) = none := by
  induction m with
  | nil => rfl
  | cons e m ih =>
      by_cases he : e.1 = p
      · simpa [perase, List.filter_cons, he] using ih
      · simpa [perase, List.filter_cons, he, plookup] using ih

theorem get_by_path_remove_self (s : IndexState) (p : FPath) :
    get_by_path (remove_file s p) p = none := by
  unfold remove_file
  cases h : s.files p <;> simp [get_by_path]

theorem filter_comm' {α : Type} (P Q : α → Bool) (l : List α) :
    (l.filter P).filter Q = (l.filter Q).filter P := by
  simp [List.filter_filter, Bool.and_comm]

theorem filter_pinsert_self (p : FPath) (d : Nat) (m : PendingMap) :
    (pinsert p d m).filter (fun e => decide (e.1 = p)) = [(p, d)] := by
  simp only [pinsert, List.filter_cons, decide_eq_true_eq, if_pos rfl]
  rw [List.filter_filter]
  have h : ∀ e ∈ m, ¬((decide (e.1 = p) && decide (e.1 ≠ p)) = true) := by
    intro e _
    by_cases he : e.1 = p <;> simp [he]
  rw [List.filter_eq_nil_iff.mpr h]
  simp

theorem plookup_eq_filter_head (p : FPath) (m : PendingMap) :
    plookup p m = ((m.filter (fun e => decide (e.1 = p))).head?).map Prod.snd := by
  induction m with
  | nil => rfl
  | cons e m ih =>
      by_cases he : e.1 = p
      · simp [plookup, he, List.filter_cons]
      · simpa [plookup, he, List.filter_cons] using ih

/-- A burst of create/modify events for a non-ignored path only touches the
pending map, folding `pinsert` over the event times. -/
theorem handle_burst_spec (kind : EventKind) (p : FPath) (ts : List Nat)
    (st : WatcherState) (hkind : kind = .create ∨ kind = .modify)
    (hp : should_ignore p = false) :
    handle_burst kind p ts st =
      ⟨ts.foldl (fun m t => pinsert p (t + debounce_ms) m) st.pending, st.index⟩ := by
  induction ts generalizing st with
  | nil => simp [handle_burst]
  | cons t ts ih =>
      have hstep : handle_fs_event kind [p] t st =
          ⟨pinsert p (t + debounce_ms) st.pending, st.index⟩ := by
        rcases hkind with h | h <;>
          simp [h, handle_fs_event, handle_path, hp]
      calc handle_burst kind p (t :: ts) st
          = handle_burst kind p ts (handle_fs_event kind [p] t st) := by
            simp [handle_burst]
        _ = _ := by rw [hstep, ih]; simp

theorem foldl_pinsert_filter (p : FPath) (d : Nat) :
    ∀ ts : List Nat, ts.getLast? = some d → ∀ m : PendingMap,
    (ts.foldl (fun m t => pinsert p (t + debounce_ms) m) m).filter
        (fun e => decide (e.1 = p)) = [(p, d + debounce_ms)] := by
  intro ts
  induction ts with
  | nil => intro h; simp at h
  | cons t ts ih =>
      intro hlast m
      cases ts with
      | nil =>
          simp only [List.getLast?_singleton, Option.some_inj] at hlast
          subst hlast
          simpa using filter_pinsert_self p (t + debounce_ms) m
      | cons t' ts' =>
          have hlast' : (t' :: ts').getLast? = some d := by
            simpa [List.getLast?_cons_cons] using hlast
          rw [List.foldl_cons]
          exact ih hlast' _

theorem runTicks_no_entry (p : FPath) (us : List Nat) (m : PendingMap)
    (h : m.filter (fun e => decide (e.1 = p)) = []) :
    (runTicks us m).2.filter (fun e => decide (e.1 = p)) = [] := by
  induction us generalizing m with
  | nil => simp [runTicks]
  | cons u us ih =>
      have h2 : (m.filter (fun e => decide (e.2 ≤ u))).filter
          (fun e => decide (e.1 = p)) = [] := by
        rw [filter_comm', h]; rfl
      have h1 : (m.filter (fun e => decide (u < e.2))).filter
          (fun e => decide (e.1 = p)) = [] := by
        rw [filter_comm', h]; rfl
      simp only [runTicks, tick, List.filter_append]
      rw [h2, ih _ h1]
      rfl

/-- If the pending map holds the single entry `(p, d)` for `p` and some tick
instant reaches `d`, the tick sequence dispatches `p` exactly once, with
deadline `d`. -/
theorem runTicks_dispatch_once (p : FPath) (d : Nat) :
    ∀ (us : List Nat) (m : PendingMap),
    m.filter (fun e => decide (e.1 = p)) = [(p, d)] →
    (∃ u ∈ us, d ≤ u) →
    (runTicks us m).2.filter (fun e => decide (e.1 = p)) = [(p, d)] := by
  intro us
  induction us with
  | nil => intro m _ hu; simp at hu
  | cons u us ih =>
      intro m hm hu
      by_cases hd : d ≤ u
      · have h2 : (m.filter (fun e => decide (e.2 ≤ u))).filter
            (fun e => decide (e.1 = p)) = [(p, d)] := by
          rw [filter_comm', hm, List.filter_cons]
          simp [hd]
        have h1 : (m.filter (fun e => decide (u < e.2))).filter
            (fun e => decide (e.1 = p)) = [] := by
          rw [filter_comm', hm, List.filter_cons]
          simp [Nat.not_lt.mpr hd]
        simp only [runTicks, tick, List.filter_append]
        rw [h2, runTicks_no_entry p us _ h1]
        rfl
      · have h2 : (m.filter (fun e => decide (e.2 ≤ u))).filter
            (fun e => decide (e.1 = p)) = [] := by
          rw [filter_comm', hm, List.filter_cons]
          simp [hd]
        have h1 : (m.filter (fun e => decide (u < e.2))).filter
            (fun e => decide (e.1 = p)) = [(p, d)] := by
          rw [filter_comm', hm, List.filter_cons]
          simp [Nat.lt_of_not_le hd]
        have hu' : ∃ v ∈ us, d ≤ v := by
          rcases hu with ⟨v, hv, hdv⟩
          rcases List.mem_cons.mp hv with rfl | hv'
          · exact absurd hdv hd
          · exact ⟨v, hv', hdv⟩
        simp only [runTicks, tick, List.filter_append]
        rw [h2, ih _ h1 hu']
        rfl

/-- C4 (amended: restricted to paths the watcher does not ignore, i.e. whose
file name does not begin with `'.'`).  Each create/modify event for `p`
overwrites `p`'s single pending entry with deadline `now + 500ms`; after a
burst of N ≥ 1 such events followed by ticks that reach the final deadline,
`p` is dispatched to exactly one hash-and-upsert cycle, at the deadline set
by the last event. -/
theorem debounce_collapses_burst (kind : EventKind) (p : FPath) (ts us : List Nat)
    (st : WatcherState) (d : Nat)
    (hkind : kind = .create ∨ kind = .modify)
    (hp : should_ignore p = false)
    (hlast : ts.getLast? = some d)
    (hu : ∃ u ∈ us, d + debounce_ms ≤ u) :
    plookup p (handle_burst kind p ts st).pending = some (d + debounce_ms) ∧
    (handle_burst kind p ts st).pending.countP (fun e => decide (e.1 = p)) = 1 ∧
    (runTicks us (handle_burst kind p ts st).pending).2.filter
        (fun e => decide (e.1 = p)) = [(p, d + debounce_ms)] := by
  rw [handle_burst_spec kind p ts st hkind hp]
  have hfilter := foldl_pinsert_filter p d ts hlast st.pending
  refine ⟨?_, ?_, ?_⟩
  · rw [plookup_eq_filter_head, hfilter]; rfl
  · rw [List.countP_eq_length_filter, hfilter]; rfl
  · exact runTicks_dispatch_once p (d + debounce_ms) us _ hfilter hu

/-- Witness for C4: two modify events on `["f"]` at instants 1 and 7, ticks
at 100 and 1000; the single dispatch carries deadline 507. -/
theorem debounce_collapses_burst_witness :
    plookup ["f"] (handle_burst .modify ["f"] [1, 7] ⟨[], emptyIndex⟩).pending =
      some (7 + debounce_ms) ∧
    (handle_burst .modify ["f"] [1, 7] ⟨[], emptyIndex⟩).pending.countP
      (fun e => decide (e.1 = ["f"])) = 1 ∧
    (runTicks [100, 1000]
      (handle_burst .modify ["f"] [1, 7] ⟨[], emptyIndex⟩).pending).2.filter
        (fun e => decide (e.1 = ["f"])) = [(["f"], 7 + debounce_ms)] :=
  debounce_collapses_burst .modify ["f"] [1, 7] [100, 1000] ⟨[], emptyIndex⟩ 7
    (Or.inr rfl) (by decide) (by decide) ⟨1000, by decide, by decide⟩

/-- Counterexample to C4 as stated (quantified over every path): for the
hidden path `[".h"]` a modify event at instant 0 never enters the pending
map, and a tick at instant 1000 dispatches nothing — zero cycles, not
exactly one. -/
theorem debounce_hidden_counterexample :
    plookup [".h"] (handle_burst .modify [".h"] [0] ⟨[], emptyIndex⟩).pending =
      none ∧
    (runTicks [1000]
      (handle_burst .modify [".h"] [0] ⟨[], emptyIndex⟩).pending).2.filter
        (fun e => decide (e.1 = [".h"])) = [] := by
  constructor <;> rfl

/-- C5 (amended: restricted to paths the watcher does not ignore).  Handling
a Remove event for `p` removes `p` from the pending map and deletes `p`'s
index entry in the same step, with no debounce tick involved. -/
theorem remove_event_immediate (now : Nat) (st : WatcherState) (p : FPath)
    (hp : should_ignore p = false) :
    (handle_fs_event .remove [p] now st).pending = perase p st.pending ∧
    (handle_fs_event .remove [p] now st).index = remove_file st.index p ∧
    plookup p (handle_fs_event .remove [p] now st).pending = none ∧
    get_by_path (handle_fs_event .remove [p] now st).index p = none := by
  have h : handle_fs_event .remove [p] now st =
      ⟨perase p st.pending, remove_file st.index p⟩ := by
    simp [handle_fs_event, handle_path, hp]
  refine ⟨by rw [h], by rw [h], ?_, ?_⟩
  · rw [h]; exact plookup_perase p st.pending
  · rw [h]; exact get_by_path_remove_self st.index p

/-- Witness for C5 (amended) at a concrete state: path `["f"]`, pending at
deadline 700, an index entry present. -/
theorem remove_event_immediate_witness :
    let st : WatcherState :=
      ⟨[(["f"], 700)], upsert_file ⟨["f"], "h", 1, "text/plain", 0⟩ emptyIndex⟩
    (handle_fs_event .remove [["f"]] 0 st).pending = perase ["f"] st.pending ∧
    (handle_fs_event .remove [["f"]] 0 st).index = remove_file st.index ["f"] ∧
    plookup ["f"] (handle_fs_event .remove [["f"]] 0 st).pending = none ∧
    get_by_path (handle_fs_event .remove [["f"]] 0 st).index ["f"] = none :=
  remove_event_immediate 0
    ⟨[(["f"], 700)], upsert_file ⟨["f"], "h", 1, "text/plain", 0⟩ emptyIndex⟩
    ["f"] (by decide)

/-- Counterexample to C5 as stated (quantified over every path): for the
hidden path `[".f"]`, with a pending entry at deadline 700 and an index
record present, the Remove event is ignored: the pending entry and the index
entry both survive. -/
theorem remove_event_hidden_counterexample :
    plookup [".f"] (handle_fs_event .remove [[".f"]] 0
      ⟨[([".f"], 700)], upsert_file ⟨[".f"], "h", 1, "t", 0⟩ emptyIndex⟩).pending =
      some 700 ∧
    get_by_path (handle_fs_event .remove [[".f"]] 0
      ⟨[([".f"], 700)], upsert_file ⟨[".f"], "h", 1, "t", 0⟩ emptyIndex⟩).index
      [".f"] = some ⟨[".f"], "h", 1, "t", 0⟩ := by
  constructor <;> rfl

/-- C6. Any filesystem event whose path's file name begins with `'.'` leaves
the watcher state (pending map and index) entirely unchanged, whatever the
event kind. -/
theorem hidden_event_noop (kind : EventKind) (now : Nat) (st : WatcherState)
    (p : FPath) (s : String)
    (hname : p.getLast? = some s) (hdot : s.data.head? = some '.') :
    handle_fs_event kind [p] now st = st := by
  have hig : should_ignore p = true := by
    unfold should_ignore
    rw [hname]
    cases hd : s.data with
    | nil => rw [hd] at hdot; simp at hdot
    | cons c cs =>
        rw [hd] at hdot
        simp only [List.head?_cons, Option.some_inj] at hdot
        simp [hd, hdot]
  simp [handle_fs_event, handle_path, hig]

/-- Witness for C6: a modify event on `[".env"]` leaves a nonempty state
unchanged. -/
theorem hidden_event_noop_witness :
    handle_fs_event .modify [[".env"]] 3
      ⟨[(["a"], 9)], upsert_file ⟨["a"], "h", 1, "t", 0⟩ emptyIndex⟩ =
      ⟨[(["a"], 9)], upsert_file ⟨["a"], "h", 1, "t", 0⟩ emptyIndex⟩ :=
  hidden_event_noop .modify 3
    ⟨[(["a"], 9)], upsert_file ⟨["a"], "h", 1, "t", 0⟩ emptyIndex⟩
    [".env"] ".env" rfl rfl

/-! ## Node (crates/network/src/node.rs)

The content-addressed blob store (`iroh_blobs` FsStore) is a map from hash
string to bytes; the BLAKE3 digest function and the digest-string parser
(`Hash::from_str`) are external dependencies, taken as parameters
(`hashFn`, `parse`), with their relevant contracts (a parsed digest is 32
bytes wide) as hypotheses. -/

/-- The `StreamError` kinds (crates/core/src/error.rs), payload text
dropped. -/
inductive SErr where
  | io
  | database
  | iroh
  | transcode
  | invalidHash
  | fileNotFound
  | notConnected
deriving DecidableEq, Repr

/-- A content-addressed blob store: hash string → stored bytes. -/
structure BlobStore where
  blobs : String → Option (List Nat)

/-- An empty blob store. -/
def emptyStore : BlobStore := ⟨fun _ => none⟩

/-- `store.add_bytes`: store the bytes under their content hash and return
the hash.  Identical bytes converge to the same entry. -/
def add_bytes (hashFn : List Nat → String) (s : BlobStore) (b : List Nat) :
    BlobStore × String :=
  (⟨fun k => if k = hashFn b then some b else s.blobs k⟩, hashFn b)

/-- `hashes.iter().map(Hash::from_str).collect::<Result<Vec<_>,_>>()`: parse
every member digest, failing if any member fails. -/
def parseAll (parse : String → Option (List Nat)) :
    List MediaHash → Option (List (List Nat))
  | [] => some []
  | h :: t =>
      match parse h, parseAll parse t with
      | some d, some ds => some (d :: ds)
      | _, _ => none

/-- `StreamNode::create_collection`: parse each member hash (invalid-hash
error if any fails, storing nothing), concatenate the members' raw digest
bytes in list order with no header or count field, store that manifest as a
blob, and return its content hash. -/
def create_collection (parse : String → Option (List Nat))
    (hashFn : List Nat → String) (s : BlobStore) (hs : List MediaHash) :
    BlobStore × Except SErr MediaHash :=
  match parseAll parse hs with
  | none => (s, .error .invalidHash)
  | some ds =>
      let r := add_bytes hashFn s ds.flatten
      (r.1, .ok r.2)

theorem parseAll_flatten_length (parse : String → Option (List Nat))
    (h32 : ∀ a b, parse a = some b → b.length = 32) :
    ∀ (hs : List MediaHash) (ds : List (List Nat)),
      parseAll parse hs = some ds → ds.flatten.length = 32 * hs.length := by
  intro hs
  induction hs with
  | nil =>
      intro ds h
      simp only [parseAll, Option.some_inj] at h
      subst h
      simp
  | cons a t ih =>
      intro ds h
      unfold parseAll at h
      cases hpa : parse a with
      | none => rw [hpa] at h; simp at h
      | some d =>
          cases hpt : parseAll parse t with
          | none => rw [hpa, hpt] at h; simp at h
          | some ds' =>
              rw [hpa, hpt] at h
              simp only [Option.some_inj] at h
              subst h
              have hd := h32 a d hpa
              have ht := ih ds' hpt
              simp only [List.flatten_cons, List.length_append, hd, ht,
                List.length_cons]
              ring

/-- C7.  When every member hash parses, `create_collection` stores a manifest
that is exactly the concatenation of the members' raw 32-byte digests in list
order (length `32 × n`, no header) and returns its content hash; when any
member fails to parse, it returns an invalid-hash error and leaves the store
untouched. -/
theorem create_collection_spec (parse : String → Option (List Nat))
    (hashFn : List Nat → String) (s : BlobStore) (hs : List MediaHash)
    (h32 : ∀ a b, parse a = some b → b.length = 32) :
    (∀ ds, parseAll parse hs = some ds →
      (create_collection parse hashFn s hs).2 = .ok (hashFn ds.flatten) ∧
      (create_collection parse hashFn s hs).1.blobs (hashFn ds.flatten) =
        some ds.flatten ∧
      ds.flatten.length = 32 * hs.length) ∧
    (parseAll parse hs = none →
      create_collection parse hashFn s hs = (s, .error .invalidHash)) := by
  constructor
  · intro ds hds
    refine ⟨?_, ?_, parseAll_flatten_length parse h32 hs ds hds⟩
    · simp [create_collection, hds, add_bytes]
    · simp [create_collection, hds, add_bytes]
  · intro hn
    simp [create_collection, hn]

/-- Witness for C7: two parsable member hashes, a toy 32-byte digest parser
and an arbitrary hash function; the manifest is the 64-byte concatenation. -/
theorem create_collection_spec_witness :
    (create_collection
        (fun a => if a.length = 2 then some (List.replicate 32 7) else none)
        (fun _ => "m") emptyStore ["aa", "bb"]).2 =
      .ok ((fun _ => "m") ([List.replicate 32 7, List.replicate 32 7] : List (List Nat)).flatten) ∧
    (create_collection
        (fun a => if a.length = 2 then some (List.replicate 32 7) else none)
        (fun _ => "m") emptyStore ["aa", "bb"]).1.blobs
        ((fun _ => "m") ([List.replicate 32 7, List.replicate 32 7] : List (List Nat)).flatten) =
      some ([List.replicate 32 7, List.replicate 32 7] : List (List Nat)).flatten ∧
    ([List.replicate 32 7, List.replicate 32 7] : List (List Nat)).flatten.length =
      32 * (["aa", "bb"] : List MediaHash).length :=
  (create_collection_spec
      (fun a => if a.length = 2 then some (List.replicate 32 7) else none)
      (fun _ => "m") emptyStore ["aa", "bb"]
      (by
        intro a b h
        simp only [] at h
        by_cases ha : a.length = 2
        · rw [if_pos ha, Option.some_inj] at h
          subst h
          simp
        · rw [if_neg ha] at h
          exact absurd h (by simp))).1
    [List.replicate 32 7, List.replicate 32 7] (by decide)

/-! ## Daemon (crates/host/src/daemon.rs)

`HostDaemon` shares the index and the node.  For `share_folder` the relevant
filesystem view is the canonicalize/`is_dir` outcome of the argument path and
the immediate directory listing, modelled as an `Option FsNode`:
`none` means `canonicalize` fails (the path does not exist).  The MIME
sniffer and creation-time reads are environment parameters. -/

/-- A filesystem node: a regular file with its contents, or a directory with
its named immediate entries. -/
inductive FsNode where
  | file (bytes : List Nat)
  | dir (entries : List (String × FsNode))

/-- The two stores the daemon orchestrates. -/
structure DaemonState where
  store : BlobStore
  index : IndexState

/-- `HostDaemon::register_file`: import into the node's blob store first
(the node is the source of truth for the content hash), then upsert the
file's metadata into the index.  Returns the hash. -/
def register_file (hashFn : List Nat → String) (mime : FPath → String)
    (ctime : FPath → Nat) (st : DaemonState) (p : FPath) (bytes : List Nat) :
    DaemonState × MediaHash :=
  let r := add_bytes hashFn st.store bytes
  (⟨r.1, upsert_file ⟨p, r.2, bytes.length, mime p, ctime p⟩ st.index⟩, r.2)

/-- The immediate regular files of a directory listing
(`entry_path.is_file()` filter in the `read_dir` loop). -/
def immediate_files (entries : List (String × FsNode)) : List (String × List Nat) :=
  entries.filterMap (fun e =>
    match e.2 with
    | .file bs => some (e.1, bs)
    | .dir _ => none)

/-- Registering each immediate file of the listing, in order. -/
def register_folder (hashFn : List Nat → String) (mime : FPath → String)
    (ctime : FPath → Nat) (dirPath : FPath) (files : List (String × List Nat))
    (st : DaemonState) : DaemonState :=
  files.foldl
    (fun acc fb => (register_file hashFn mime ctime acc (dirPath ++ [fb.1]) fb.2).1)
    st

/-- `HostDaemon::share_folder`: canonicalize (I/O error if the path does not
exist), require a directory (I/O `NotADirectory` otherwise), register every
immediate regular file, fail with an I/O error when none was found, then
build a collection over the gathered hashes.  Returns the collection hash
the issued ticket would carry. -/
def share_folder (parse : String → Option (List Nat))
    (hashFn : List Nat → String) (mime : FPath → String) (ctime : FPath → Nat)
    (st : DaemonState) (target : Option FsNode) (dirPath : FPath) :
    DaemonState × Except SErr MediaHash :=
  match target with
  | none => (st, .error .io)
  | some (.file _) => (st, .error .io)
  | some (.dir entries) =>
      let files := immediate_files entries
      let st1 := register_folder hashFn mime ctime dirPath files st
      let hashes := files.map (fun fb => hashFn fb.2)
      if hashes.isEmpty then (st1, .error .io)
      else
        let c := create_collection parse hashFn st1.store hashes
        (⟨c.1, st1.index⟩, c.2)

theorem register_folder_index_frame (hashFn : List Nat → String)
    (mime : FPath → String) (ctime : FPath → Nat) (dirPath : FPath)
    (q : FPath) :
    ∀ (files : List (String × List Nat)) (st : DaemonState),
      (∀ fb ∈ files, q ≠ dirPath ++ [fb.1]) →
      (register_folder hashFn mime ctime dirPath files st).index.files q =
        st.index.files q := by
  intro files
  induction files with
  | nil => intro st _; rfl
  | cons fb files ih =>
      intro st hq
      have hstep : (register_file hashFn mime ctime st (dirPath ++ [fb.1])
          fb.2).1.index.files q = st.index.files q := by
        have hne : q ≠ dirPath ++ [fb.1] := hq fb (List.mem_cons_self fb files)
        simp [register_file, upsert_file, hne]
      calc (register_folder hashFn mime ctime dirPath (fb :: files) st).index.files q
          = (register_folder hashFn mime ctime dirPath files
              (register_file hashFn mime ctime st (dirPath ++ [fb.1]) fb.2).1).index.files q := rfl
        _ = _ := by
            rw [ih _ (fun b hb => hq b (List.mem_cons_of_mem fb hb)), hstep]

theorem register_folder_preserves_present (hashFn : List Nat → String)
    (mime : FPath → String) (ctime : FPath → Nat) (dirPath : FPath) :
    ∀ (files : List (String × List Nat)) (st : DaemonState)
      (k : String) (q : FPath),
      st.store.blobs k ≠ none → st.index.files q ≠ none →
      (register_folder hashFn mime ctime dirPath files st).store.blobs k ≠ none ∧
      (register_folder hashFn mime ctime dirPath files st).index.files q ≠ none := by
  intro files
  induction files with
  | nil => intro st k q hk hq; exact ⟨hk, hq⟩
  | cons fb files ih =>
      intro st k q hk hq
      apply ih
      · simp only [register_file, add_bytes]
        by_cases he : k = hashFn fb.2 <;> simp [he, hk]
      · simp only [register_file, upsert_file]
        by_cases he : q = dirPath ++ [fb.1] <;> simp [he, hq]

theorem register_folder_registers (hashFn : List Nat → String)
    (mime : FPath → String) (ctime : FPath → Nat) (dirPath : FPath) :
    ∀ (files : List (String × List Nat)) (st : DaemonState) (fb : String × List Nat),
      fb ∈ files →
      (register_folder hashFn mime ctime dirPath files st).store.blobs
        (hashFn fb.2) ≠ none ∧
      (register_folder hashFn mime ctime dirPath files st).index.files
        (dirPath ++ [fb.1]) ≠ none := by
  intro files
  induction files with
  | nil => intro st fb h; exact absurd h (List.not_mem_nil fb)
  | cons hd files ih =>
      intro st fb hmem
      have hstep : register_folder hashFn mime ctime dirPath (hd :: files) st =
          register_folder hashFn mime ctime dirPath files
            (register_file hashFn mime ctime st (dirPath ++ [hd.1]) hd.2).1 := rfl
      rcases List.mem_cons.mp hmem with rfl | hmem'
      · rw [hstep]
        apply register_folder_preserves_present
        · simp [register_file, add_bytes]
        · simp [register_file, upsert_file]
      · rw [hstep]
        exact ih _ fb hmem'

/-- C9.  `share_folder` fails with an I/O error when the canonicalized path
does not exist or is not a directory; on a directory it registers exactly the
immediate regular files (non-recursively: the index at any other path is
untouched, and every immediate file lands in both stores); and when the
directory holds no immediate regular file it fails with an I/O error, both
stores unchanged (no collection created). -/
theorem share_folder_spec (parse : String → Option (List Nat))
    (hashFn : List Nat → String) (mime : FPath → String) (ctime : FPath → Nat)
    (st : DaemonState) (dirPath : FPath) :
    (share_folder parse hashFn mime ctime st none dirPath = (st, .error .io)) ∧
    (∀ bs, share_folder parse hashFn mime ctime st (some (.file bs)) dirPath =
      (st, .error .io)) ∧
    (∀ entries, immediate_files entries = [] →
      share_folder parse hashFn mime ctime st (some (.dir entries)) dirPath =
        (st, .error .io)) ∧
    (∀ entries q, (∀ fb ∈ immediate_files entries, q ≠ dirPath ++ [fb.1]) →
      (share_folder parse hashFn mime ctime st (some (.dir entries))
        dirPath).1.index.files q = st.index.files q) ∧
    (∀ entries fb, fb ∈ immediate_files entries →
      (register_folder hashFn mime ctime dirPath (immediate_files entries)
        st).store.blobs (hashFn fb.2) ≠ none ∧
      (share_folder parse hashFn mime ctime st (some (.dir entries))
        dirPath).1.index.files (dirPath ++ [fb.1]) ≠ none) := by
  have hidx : ∀ entries,
      (share_folder parse hashFn mime ctime st (some (.dir entries))
        dirPath).1.index =
      (register_folder hashFn mime ctime dirPath (immediate_files entries)
        st).index := by
    intro entries
    unfold share_folder
    by_cases he : (immediate_files entries).map (fun fb => hashFn fb.2) = []
    · simp [he]
    · simp only [List.isEmpty_iff, he, if_neg, ite_false]
  refine ⟨rfl, fun bs => rfl, ?_, ?_, ?_⟩
  · intro entries he
    unfold share_folder
    simp [he, register_folder]
  · intro entries q hq
    rw [hidx entries]
    exact register_folder_index_frame hashFn mime ctime dirPath q _ st hq
  · intro entries fb hmem
    refine ⟨(register_folder_registers hashFn mime ctime dirPath _ st fb hmem).1, ?_⟩
    rw [hidx entries]
    exact (register_folder_registers hashFn mime ctime dirPath _ st fb hmem).2

/-- Witness for C9: a directory with one immediate file `a.txt` and a
subdirectory holding `deep.txt`; the immediate file is registered, the deep
one is not, and the empty/non-directory cases error out. -/
theorem share_folder_spec_witness :
    (share_folder (fun _ => some []) (fun _ => "H") (fun _ => "t") (fun _ => 0)
      ⟨emptyStore, emptyIndex⟩ none ["d"] =
      (⟨emptyStore, emptyIndex⟩, .error .io)) ∧
    (share_folder (fun _ => some []) (fun _ => "H") (fun _ => "t") (fun _ => 0)
      ⟨emptyStore, emptyIndex⟩ (some (.file [9])) ["d"] =
      (⟨emptyStore, emptyIndex⟩, .error .io)) ∧
    (share_folder (fun _ => some []) (fun _ => "H") (fun _ => "t") (fun _ => 0)
      ⟨emptyStore, emptyIndex⟩
      (some (.dir [("sub", .dir [("deep.txt", .file [2])])])) ["d"] =
      (⟨emptyStore, emptyIndex⟩, .error .io)) ∧
    ((share_folder (fun _ => some []) (fun _ => "H") (fun _ => "t") (fun _ => 0)
      ⟨emptyStore, emptyIndex⟩
      (some (.dir [("a.txt", .file [1]), ("sub", .dir [("deep.txt", .file [2])])]))
      ["d"]).1.index.files ["d", "sub", "deep.txt"] =
      (⟨emptyStore, emptyIndex⟩ : DaemonState).index.files ["d", "sub", "deep.txt"]) ∧
    ((share_folder (fun _ => some []) (fun _ => "H") (fun _ => "t") (fun _ => 0)
      ⟨emptyStore, emptyIndex⟩
      (some (.dir [("a.txt", .file [1]), ("sub", .dir [("deep.txt", .file [2])])]))
      ["d"]).1.index.files ["d", "a.txt"] ≠ none) := by
  have h := share_folder_spec (fun _ => some []) (fun _ => "H") (fun _ => "t")
    (fun _ => 0) ⟨emptyStore, emptyIndex⟩ ["d"]
  refine ⟨h.1, h.2.1 [9], ?_, ?_, ?_⟩
  · exact h.2.2.1 [("sub", .dir [("deep.txt", .file [2])])] (by rfl)
  · exact h.2.2.2.1
      [("a.txt", .file [1]), ("sub", .dir [("deep.txt", .file [2])])]
      ["d", "sub", "deep.txt"] (by decide)
  · exact (h.2.2.2.2
      [("a.txt", .file [1]), ("sub", .dir [("deep.txt", .file [2])])]
      ("a.txt", [1]) (by decide)).2

/-! ## Ticket codec (crates/core/src/types.rs)

`ShareTicket::encode` is `BASE64_STANDARD.encode(serde_json::to_string(self))`;
`decode` is the inverse, mapping both failure modes to `InvalidHash`.  The
codec is modelled at the byte level: strings are their UTF-8 byte lists
(each byte < 256), the JSON document is a byte list, and base64 maps byte
lists to ASCII-character byte lists.  The base64 alphabet/padding follow the
standard engine (padding required, non-canonical trailing bits rejected);
the JSON serializer follows serde_json's compact form with its escape table,
and the parser accepts the serializer's canonical shape (any other input is
a parse failure, which `decode` maps to the invalid-hash error exactly as
serde_json failures are). -/

/-- The standard base64 alphabet: 6-bit value → ASCII code. -/
def b64char (n : Nat) : Nat :=
  if n < 26 then 65 + n
  else if n < 52 then 97 + (n - 26)
  else if n < 62 then 48 + (n - 52)
  else if n = 62 then 43
  else 47

/-- Inverse alphabet: ASCII code → 6-bit value, `none` off-alphabet. -/
def b64val (c : Nat) : Option Nat :=
  if 65 ≤ c ∧ c ≤ 90 then some (c - 65)
  else if 97 ≤ c ∧ c ≤ 122 then some (c - 97 + 26)
  else if 48 ≤ c ∧ c ≤ 57 then some (c - 48 + 52)
  else if c = 43 then some 62
  else if c = 47 then some 63
  else none

theorem b64val_b64char : ∀ n, n < 64 → b64val (b64char n) = some n := by decide

theorem b64char_ne_pad : ∀ n, n < 64 → b64char n ≠ 61 := by decide

/-- Standard base64 encoding of a byte list, with `'='` (61) padding. -/
def b64encode : List Nat → List Nat
  | [] => []
  | [a] => [b64char (a / 4), b64char (a % 4 * 16), 61, 61]
  | [a, b] => [b64char (a / 4), b64char (a % 4 * 16 + b / 16), b64char (b % 16 * 4), 61]
  | a :: b :: c :: rest =>
      b64char (a / 4) :: b64char (a % 4 * 16 + b / 16) ::
        b64char (b % 16 * 4 + c / 64) :: b64char (c % 64) :: b64encode rest

/-- Standard base64 decoding: rejects off-alphabet characters, lengths not a
multiple of 4, misplaced padding, and non-zero trailing bits. -/
def b64decode : List Nat → Option (List Nat)
  | [] => some []
  | c1 :: c2 :: c3 :: c4 :: rest =>
      match b64val c1, b64val c2 with
      | some v1, some v2 =>
          if c3 = 61 then
            if c4 = 61 ∧ rest = [] ∧ v2 % 16 = 0 then some [v1 * 4 + v2 / 16]
            else none
          else
            match b64val c3 with
            | some v3 =>
                if c4 = 61 then
                  if rest = [] ∧ v3 % 4 = 0 then
                    some [v1 * 4 + v2 / 16, v2 % 16 * 16 + v3 / 4]
                  else none
                else
                  match b64val c4 with
                  | some v4 =>
                      match b64decode rest with
                      | some bs =>
                          some ((v1 * 4 + v2 / 16) :: (v2 % 16 * 16 + v3 / 4) ::
                            (v3 % 4 * 64 + v4) :: bs)
                      | none => none
                  | none => none
            | none => none
      | _, _ => none
  | _ => none

theorem b64_roundtrip : ∀ l : List Nat, (∀ b ∈ l, b < 256) →
    b64decode (b64encode l) = some l := by
  intro l
  induction l using b64encode.induct with
  | case1 => intro _; simp [b64encode, b64decode]
  | case2 a =>
      intro hl
      have ha : a < 256 := hl a (by simp)
      have h1 := b64val_b64char (a / 4) (by omega)
      have h2 := b64val_b64char (a % 4 * 16) (by omega)
      simp only [b64encode, b64decode, h1, h2]
      have h3 : (a % 4 * 16) % 16 = 0 := by omega
      simp only [h3, and_true, and_self, if_pos rfl, if_true]
      congr 2
      omega
  | case3 a b =>
      intro hl
      have ha : a < 256 := hl a (by simp)
      have hb : b < 256 := hl b (by simp)
      have h1 := b64val_b64char (a / 4) (by omega)
      have h2 := b64val_b64char (a % 4 * 16 + b / 16) (by omega)
      have h3 := b64val_b64char (b % 16 * 4) (by omega)
      have hne : b64char (b % 16 * 4) ≠ 61 := b64char_ne_pad _ (by omega)
      simp only [b64encode, b64decode, h1, h2, h3, if_neg hne]
      have h4 : (b % 16 * 4) % 4 = 0 := by omega
      simp only [h4, and_self, if_pos rfl, if_true, and_true]
      congr 3 <;> omega
  | case4 a b c rest ih =>
      intro hl
      have ha : a < 256 := hl a (by simp)
      have hb : b < 256 := hl b (by simp)
      have hc : c < 256 := hl c (by simp)
      have hrest : ∀ x ∈ rest, x < 256 := fun x hx => hl x (by simp [hx])
      have h1 := b64val_b64char (a / 4) (by omega)
      have h2 := b64val_b64char (a % 4 * 16 + b / 16) (by omega)
      have h3 := b64val_b64char (b % 16 * 4 + c / 64) (by omega)
      have h4 := b64val_b64char (c % 64) (by omega)
      have hne3 : b64char (b % 16 * 4 + c / 64) ≠ 61 := b64char_ne_pad _ (by omega)
      have hne4 : b64char (c % 64) ≠ 61 := b64char_ne_pad _ (by omega)
      simp only [b64encode, b64decode, h1, h2, h3, h4, if_neg hne3, if_neg hne4,
        ih hrest]
      congr 4 <;> omega

/-! ### JSON string escaping (serde_json's escape table, at byte level) -/

/-- Lower-case hex digit character of a 4-bit value. -/
def hexDigit (n : Nat) : Nat := if n < 10 then 48 + n else 87 + n

/-- Hex digit character → value. -/
def hexVal (c : Nat) : Option Nat :=
  if 48 ≤ c ∧ c ≤ 57 then some (c - 48)
  else if 97 ≤ c ∧ c ≤ 102 then some (c - 87)
  else if 65 ≤ c ∧ c ≤ 70 then some (c - 55)
  else none

theorem hexVal_hexDigit : ∀ n, n < 16 → hexVal (hexDigit n) = some n := by decide

/-- serde_json's escape of one byte inside a JSON string: quote and backslash
get two-character escapes, the five named control characters get theirs,
remaining control bytes get a six-character lower-case `\u00XX` escape, and
every other byte passes through verbatim. -/
def escByte (b : Nat) : List Nat :=
  if b = 34 then [92, 34]
  else if b = 92 then [92, 92]
  else if b = 8 then [92, 98]
  else if b = 9 then [92, 116]
  else if b = 10 then [92, 110]
  else if b = 12 then [92, 102]
  else if b = 13 then [92, 114]
  else if b < 32 then [92, 117, 48, 48, hexDigit (b / 16), hexDigit (b % 16)]
  else [b]

/-- Escape of a whole string body. -/
def escBytes (s : List Nat) : List Nat := (s.map escByte).flatten

/-- JSON string-body parser (the opening quote already consumed): unescapes
until the closing quote, returning the body and the remaining input.
Accepts the short escapes, `\/`, and `\u` escapes up to 0x7F (the only ones
the serializer emits). -/
def parseJString : List Nat → Option (List Nat × List Nat)
  | [] => none
  | b :: rest =>
      if b = 34 then some ([], rest)
      else if b = 92 then
        match rest with
        | [] => none
        | e :: rest2 =>
            if e = 34 then (parseJString rest2).map (fun pr => (34 :: pr.1, pr.2))
            else if e = 92 then (parseJString rest2).map (fun pr => (92 :: pr.1, pr.2))
            else if e = 47 then (parseJString rest2).map (fun pr => (47 :: pr.1, pr.2))
            else if e = 98 then (parseJString rest2).map (fun pr => (8 :: pr.1, pr.2))
            else if e = 116 then (parseJString rest2).map (fun pr => (9 :: pr.1, pr.2))
            else if e = 110 then (parseJString rest2).map (fun pr => (10 :: pr.1, pr.2))
            else if e = 102 then (parseJString rest2).map (fun pr => (12 :: pr.1, pr.2))
            else if e = 114 then (parseJString rest2).map (fun pr => (13 :: pr.1, pr.2))
            else if e = 117 then
              match rest2 with
              | h1 :: h2 :: h3 :: h4 :: rest3 =>
                  match hexVal h1, hexVal h2, hexVal h3, hexVal h4 with
                  | some v1, some v2, some v3, some v4 =>
                      if v1 * 4096 + v2 * 256 + v3 * 16 + v4 < 128 then
                        (parseJString rest3).map
                          (fun pr => ((v1 * 4096 + v2 * 256 + v3 * 16 + v4) :: pr.1, pr.2))
                      else none
                  | _, _, _, _ => none
              | _ => none
            else none
      else (parseJString rest).map (fun pr => (b :: pr.1, pr.2))

theorem pj_quote (rest : List Nat) : parseJString (34 :: rest) = some ([], rest) := by
  rw [parseJString.eq_def]; rfl

theorem pj_e34 (r : List Nat) :
    parseJString (92 :: 34 :: r) = (parseJString r).map (fun pr => (34 :: pr.1, pr.2)) := by
  rw [parseJString.eq_def]; rfl

theorem pj_e92 (r : List Nat) :
    parseJString (92 :: 92 :: r) = (parseJString r).map (fun pr => (92 :: pr.1, pr.2)) := by
  rw [parseJString.eq_def]; rfl

theorem pj_e98 (r : List Nat) :
    parseJString (92 :: 98 :: r) = (parseJString r).map (fun pr => (8 :: pr.1, pr.2)) := by
  rw [parseJString.eq_def]; rfl

theorem pj_e116 (r : List Nat) :
    parseJString (92 :: 116 :: r) = (parseJString r).map (fun pr => (9 :: pr.1, pr.2)) := by
  rw [parseJString.eq_def]; rfl

theorem pj_e110 (r : List Nat) :
    parseJString (92 :: 110 :: r) = (parseJString r).map (fun pr => (10 :: pr.1, pr.2)) := by
  rw [parseJString.eq_def]; rfl

theorem pj_e102 (r : List Nat) :
    parseJString (92 :: 102 :: r) = (parseJString r).map (fun pr => (12 :: pr.1, pr.2)) := by
  rw [parseJString.eq_def]; rfl

theorem pj_e114 (r : List Nat) :
    parseJString (92 :: 114 :: r) = (parseJString r).map (fun pr => (13 :: pr.1, pr.2)) := by
  rw [parseJString.eq_def]; rfl

theorem pj_hex (h1 h2 h3 h4 : Nat) (r : List Nat) :
    parseJString (92 :: 117 :: h1 :: h2 :: h3 :: h4 :: r) =
      match hexVal h1, hexVal h2, hexVal h3, hexVal h4 with
      | some v1, some v2, some v3, some v4 =>
          if v1 * 4096 + v2 * 256 + v3 * 16 + v4 < 128 then
            (parseJString r).map
              (fun pr => ((v1 * 4096 + v2 * 256 + v3 * 16 + v4) :: pr.1, pr.2))
          else none
      | _, _, _, _ => none := by
  rw [parseJString.eq_def]; rfl

theorem pj_verbatim (b : Nat) (rest : List Nat) (h34 : b ≠ 34) (h92 : b ≠ 92) :
    parseJString (b :: rest) = (parseJString rest).map (fun pr => (b :: pr.1, pr.2)) := by
  rw [parseJString.eq_def]
  simp only [if_neg h34, if_neg h92]

theorem parseJString_escBytes (s : List Nat) (rest : List Nat) :
    parseJString (escBytes s ++ 34 :: rest) = some (s, rest) := by
  induction s with
  | nil =>
      show parseJString (([] : List (List Nat)).flatten ++ 34 :: rest) = _
      rw [List.flatten_nil, List.nil_append, pj_quote]
  | cons b s ih =>
      have hstep : escBytes (b :: s) ++ 34 :: rest
          = escByte b ++ (escBytes s ++ 34 :: rest) := by
        simp [escBytes]
      rw [hstep]
      by_cases h34 : b = 34
      · subst h34
        have he : escByte 34 = [92, 34] := rfl
        rw [he]
        simp only [List.cons_append, List.nil_append, pj_e34, ih, Option.map_some']
      · by_cases h92 : b = 92
        · subst h92
          have he : escByte 92 = [92, 92] := rfl
          rw [he]
          simp only [List.cons_append, List.nil_append, pj_e92, ih, Option.map_some']
        · by_cases h8 : b = 8
          · subst h8
            have he : escByte 8 = [92, 98] := rfl
            rw [he]
            simp only [List.cons_append, List.nil_append, pj_e98, ih, Option.map_some']
          · by_cases h9 : b = 9
            · subst h9
              have he : escByte 9 = [92, 116] := rfl
              rw [he]
              simp only [List.cons_append, List.nil_append, pj_e116, ih, Option.map_some']
            · by_cases h10 : b = 10
              · subst h10
                have he : escByte 10 = [92, 110] := rfl
                rw [he]
                simp only [List.cons_append, List.nil_append, pj_e110, ih, Option.map_some']
              · by_cases h12 : b = 12
                · subst h12
                  have he : escByte 12 = [92, 102] := rfl
                  rw [he]
                  simp only [List.cons_append, List.nil_append, pj_e102, ih, Option.map_some']
                · by_cases h13 : b = 13
                  · subst h13
                    have he : escByte 13 = [92, 114] := rfl
                    rw [he]
                    simp only [List.cons_append, List.nil_append, pj_e114, ih, Option.map_some']
                  · by_cases hctl : b < 32
                    · have he : escByte b =
                          [92, 117, 48, 48, hexDigit (b / 16), hexDigit (b % 16)] := by
                        simp [escByte, h34, h92, h8, h9, h10, h12, h13, hctl]
                      have hb16 : hexVal (hexDigit (b / 16)) = some (b / 16) :=
                        hexVal_hexDigit _ (by omega)
                      have hbm : hexVal (hexDigit (b % 16)) = some (b % 16) :=
                        hexVal_hexDigit _ (by omega)
                      have h48 : hexVal 48 = some 0 := rfl
                      rw [he]
                      simp only [List.cons_append, List.nil_append]
                      rw [pj_hex]
                      simp only [hb16, hbm, h48]
                      have hv : 0 * 4096 + 0 * 256 + b / 16 * 16 + b % 16 < 128 := by
                        omega
                      rw [if_pos hv, ih]
                      have hb : b / 16 * 16 + b % 16 = b := by omega
                      simp [hb]
                    · have he : escByte b = [b] := by
                        simp [escByte, h34, h92, h8, h9, h10, h12, h13, hctl]
                      rw [he]
                      simp only [List.cons_append, List.nil_append]
                      rw [pj_verbatim b _ h34 h92, ih]
                      rfl

/-! ### JSON number literals (u64 as decimal digits) -/

/-- Decimal digits of `n`, most significant first, onto `acc`. -/
def natLitAux (n : Nat) (acc : List Nat) : List Nat :=
  if n < 10 then (48 + n) :: acc
  else natLitAux (n / 10) ((48 + n % 10) :: acc)
termination_by n
decreasing_by exact Nat.div_lt_self (by omega) (by omega)

/-- The decimal digit characters of `n` (serde_json's u64 formatting). -/
def natLit (n : Nat) : List Nat := natLitAux n []

theorem natLitAux_unfold (n : Nat) (acc : List Nat) :
    natLitAux n acc =
      if n < 10 then (48 + n) :: acc
      else natLitAux (n / 10) ((48 + n % 10) :: acc) := by
  rw [natLitAux]

/-- ASCII decimal digit test. -/
def isDigit (c : Nat) : Bool := decide (48 ≤ c ∧ c ≤ 57)

/-- Value of a digit string. -/
def digitsVal (ds : List Nat) : Nat := ds.foldl (fun a d => a * 10 + (d - 48)) 0

/-- Parse a decimal number: the longest digit prefix, failing if empty. -/
def parseNat (l : List Nat) : Option (Nat × List Nat) :=
  let ds := l.takeWhile isDigit
  if ds.isEmpty then none else some (digitsVal ds, l.dropWhile isDigit)

theorem natLitAux_eq_append (n : Nat) :
    ∀ acc : List Nat, natLitAux n acc = natLitAux n [] ++ acc := by
  induction n using Nat.strong_induction_on with
  | _ n ih =>
      intro acc
      by_cases h : n < 10
      · rw [natLitAux_unfold, if_pos h, natLitAux_unfold, if_pos h]
        rfl
      · rw [natLitAux_unfold, if_neg h]
        conv_rhs => rw [natLitAux_unfold, if_neg h]
        have hlt : n / 10 < n := Nat.div_lt_self (by omega) (by omega)
        rw [ih _ hlt ((48 + n % 10) :: acc), ih _ hlt [48 + n % 10]]
        simp

theorem natLit_all_digits (n : Nat) : ∀ d ∈ natLit n, isDigit d = true := by
  induction n using Nat.strong_induction_on with
  | _ n ih =>
      intro d hd
      unfold natLit at hd
      by_cases h : n < 10
      · rw [natLitAux_unfold, if_pos h] at hd
        simp at hd
        subst hd
        simp [isDigit]
        omega
      · rw [natLitAux_unfold, if_neg h, natLitAux_eq_append] at hd
        rcases List.mem_append.mp hd with hm1 | hm2
        · exact ih _ (Nat.div_lt_self (by omega) (by omega)) d hm1
        · simp at hm2
          subst hm2
          simp [isDigit]
          omega

theorem natLit_ne_nil (n : Nat) : natLit n ≠ [] := by
  unfold natLit
  by_cases h : n < 10
  · rw [natLitAux_unfold, if_pos h]; simp
  · rw [natLitAux_unfold, if_neg h, natLitAux_eq_append]; simp

theorem digitsVal_append (xs ys : List Nat) :
    digitsVal (xs ++ ys) = ys.foldl (fun a d => a * 10 + (d - 48)) (digitsVal xs) := by
  simp [digitsVal, List.foldl_append]

theorem digitsVal_natLit (n : Nat) : digitsVal (natLit n) = n := by
  induction n using Nat.strong_induction_on with
  | _ n ih =>
      by_cases h : n < 10
      · unfold natLit
        rw [natLitAux_unfold, if_pos h]
        simp [digitsVal]
      · unfold natLit
        rw [natLitAux_unfold, if_neg h, natLitAux_eq_append]
        rw [digitsVal_append]
        have hih := ih (n / 10) (Nat.div_lt_self (by omega) (by omega))
        unfold natLit at hih
        rw [hih]
        simp
        omega

theorem takeWhile_all_append (p : Nat → Bool) (ds rest : List Nat)
    (hall : ∀ d ∈ ds, p d = true)
    (hrest : ∀ c, rest.head? = some c → p c = false) :
    (ds ++ rest).takeWhile p = ds ∧ (ds ++ rest).dropWhile p = rest := by
  induction ds with
  | nil =>
      simp only [List.nil_append]
      cases rest with
      | nil => simp
      | cons r rs =>
          have hr := hrest r rfl
          simp [List.takeWhile_cons, List.dropWhile_cons, hr]
  | cons d ds ih =>
      have hd := hall d (by simp)
      have ih2 := ih (fun x hx => hall x (by simp [hx]))
      simp [List.takeWhile_cons, List.dropWhile_cons, hd, ih2.1, ih2.2]

theorem parseNat_natLit (n : Nat) (rest : List Nat)
    (hrest : ∀ c, rest.head? = some c → isDigit c = false) :
    parseNat (natLit n ++ rest) = some (n, rest) := by
  have h := takeWhile_all_append isDigit (natLit n) rest (natLit_all_digits n) hrest
  unfold parseNat
  rw [h.1, h.2]
  simp [List.isEmpty_iff, natLit_ne_nil n, digitsVal_natLit n]

/-! ### The ticket document -/

/-- Consume an exact literal prefix, returning the remaining input. -/
def parseLit : List Nat → List Nat → Option (List Nat)
  | [], l => some l
  | _ :: _, [] => none
  | x :: xs, y :: ys => if y = x then parseLit xs ys else none

theorem parseLit_append (lit rest : List Nat) : parseLit lit (lit ++ rest) = some rest := by
  induction lit with
  | nil => rfl
  | cons x xs ih => simp [parseLit, ih]

/-- `ShareTicket` (crates/core/src/types.rs): the string fields as their
UTF-8 byte lists, `created_at : u64` as `Nat`.  (`hash` is the `MediaHash`
newtype, which serde serializes as the bare inner string.) -/
structure ShareTicket where
  node_id : List Nat
  relay_url : List Nat
  hash : List Nat
  name : List Nat
  created_at : Nat
deriving DecidableEq, Repr

/-- ASCII bytes of the field name "node_id". -/
def keyNodeId : List Nat := [110, 111, 100, 101, 95, 105, 100]

/-- ASCII bytes of the field name "relay_url". -/
def keyRelayUrl : List Nat := [114, 101, 108, 97, 121, 95, 117, 114, 108]

/-- ASCII bytes of the field name "hash". -/
def keyHash : List Nat := [104, 97, 115, 104]

/-- ASCII bytes of the field name "name". -/
def keyName : List Nat := [110, 97, 109, 101]

/-- ASCII bytes of the field name "created_at". -/
def keyCreatedAt : List Nat := [99, 114, 101, 97, 116, 101, 100, 95, 97, 116]

/-- A JSON string literal: quote, escaped body, quote. -/
def strLit (s : List Nat) : List Nat := 34 :: (escBytes s ++ [34])

/-- `serde_json::to_string` of a `ShareTicket`: the compact five-field object
in declaration order (byte 123 opens the object, 125 closes it, 58 is the
colon, 44 the comma). -/
def jsonOfTicket (t : ShareTicket) : List Nat :=
  [123] ++ strLit keyNodeId ++ [58] ++ strLit t.node_id ++ [44] ++
  strLit keyRelayUrl ++ [58] ++ strLit t.relay_url ++ [44] ++
  strLit keyHash ++ [58] ++ strLit t.hash ++ [44] ++
  strLit keyName ++ [58] ++ strLit t.name ++ [44] ++
  strLit keyCreatedAt ++ [58] ++ natLit t.created_at ++ [125]

/-- The document prefix up to and including the opening quote of the
`node_id` value. -/
def litNodeId : List Nat := [123] ++ strLit keyNodeId ++ [58, 34]

/-- Separator before the `relay_url` value. -/
def litRelayUrl : List Nat := [44] ++ strLit keyRelayUrl ++ [58, 34]

/-- Separator before the `hash` value. -/
def litHash : List Nat := [44] ++ strLit keyHash ++ [58, 34]

/-- Separator before the `name` value. -/
def litName : List Nat := [44] ++ strLit keyName ++ [58, 34]

/-- Separator before the `created_at` number. -/
def litCreatedAt : List Nat := [44] ++ strLit keyCreatedAt ++ [58]

/-- `serde_json::from_slice::<ShareTicket>` on the canonical document shape
the serializer emits: any deviation is a parse failure (as it is for serde on
malformed input). -/
def parseTicket (l : List Nat) : Option ShareTicket :=
  match parseLit litNodeId l with
  | none => none
  | some r1 =>
    match parseJString r1 with
    | none => none
    | some (nid, r2) =>
      match parseLit litRelayUrl r2 with
      | none => none
      | some r3 =>
        match parseJString r3 with
        | none => none
        | some (rurl, r4) =>
          match parseLit litHash r4 with
          | none => none
          | some (r5) =>
            match parseJString r5 with
            | none => none
            | some (hsh, r6) =>
              match parseLit litName r6 with
              | none => none
              | some r7 =>
                match parseJString r7 with
                | none => none
                | some (nm, r8) =>
                  match parseLit litCreatedAt r8 with
                  | none => none
                  | some r9 =>
                    match parseNat r9 with
                    | none => none
                    | some (n, r10) =>
                      if r10 = [125] then some ⟨nid, rurl, hsh, nm, n⟩ else none

theorem parseTicket_jsonOfTicket (t : ShareTicket) :
    parseTicket (jsonOfTicket t) = some t := by
  have h : jsonOfTicket t =
      litNodeId ++ (escBytes t.node_id ++ 34 ::
        (litRelayUrl ++ (escBytes t.relay_url ++ 34 ::
          (litHash ++ (escBytes t.hash ++ 34 ::
            (litName ++ (escBytes t.name ++ 34 ::
              (litCreatedAt ++ (natLit t.created_at ++ [125]))))))))) := by
    simp [jsonOfTicket, litNodeId, litRelayUrl, litHash, litName, litCreatedAt,
      strLit, List.append_assoc]
  have hnum : parseNat (natLit t.created_at ++ [125]) =
      some (t.created_at, [125]) := by
    refine parseNat_natLit _ _ ?_
    intro c hc
    simp only [List.head?_cons, Option.some_inj] at hc
    subst hc
    rfl
  rw [parseTicket, h, parseLit_append]
  simp only [parseJString_escBytes, parseLit_append, hnum]
  simp

theorem escByte_lt (b : Nat) (hb : b < 256) : ∀ x ∈ escByte b, x < 256 := by
  intro x hx
  unfold escByte at hx
  split at hx
  · simp at hx; omega
  · split at hx
    · simp at hx; omega
    · split at hx
      · simp at hx; omega
      · split at hx
        · simp at hx; omega
        · split at hx
          · simp at hx; omega
          · split at hx
            · simp at hx; omega
            · split at hx
              · simp at hx; omega
              · split at hx
                · simp only [List.mem_cons, List.not_mem_nil, or_false] at hx
                  have hx1 : hexDigit (b / 16) < 256 := by
                    unfold hexDigit; split <;> omega
                  have hx2 : hexDigit (b % 16) < 256 := by
                    unfold hexDigit; split <;> omega
                  rcases hx with rfl | rfl | rfl | rfl | rfl | rfl <;> omega
                · simp at hx; omega

theorem escBytes_lt (s : List Nat) (hs : ∀ b ∈ s, b < 256) :
    ∀ x ∈ escBytes s, x < 256 := by
  intro x hx
  unfold escBytes at hx
  rcases List.mem_flatten.mp hx with ⟨l, hl, hxl⟩
  rcases List.mem_map.mp hl with ⟨b, hb, rfl⟩
  exact escByte_lt b (hs b hb) x hxl

theorem strLit_lt (s : List Nat) (hs : ∀ b ∈ s, b < 256) :
    ∀ x ∈ strLit s, x < 256 := by
  intro x hx
  unfold strLit at hx
  rcases List.mem_cons.mp hx with rfl | hx2
  · omega
  · rcases List.mem_append.mp hx2 with hm1 | hm2
    · exact escBytes_lt s hs x hm1
    · simp at hm2; omega

theorem natLit_lt (n : Nat) : ∀ x ∈ natLit n, x < 256 := by
  intro x hx
  have hd := natLit_all_digits n x hx
  unfold isDigit at hd
  simp at hd
  omega

theorem jsonOfTicket_lt (t : ShareTicket)
    (h1 : ∀ b ∈ t.node_id, b < 256) (h2 : ∀ b ∈ t.relay_url, b < 256)
    (h3 : ∀ b ∈ t.hash, b < 256) (h4 : ∀ b ∈ t.name, b < 256) :
    ∀ x ∈ jsonOfTicket t, x < 256 := by
  unfold jsonOfTicket
  simp only [List.forall_mem_append]
  repeat' apply And.intro
  · intro x hx; simp at hx; omega
  · exact strLit_lt keyNodeId (by decide)
  · intro x hx; simp at hx; omega
  · exact strLit_lt t.node_id h1
  · intro x hx; simp at hx; omega
  · exact strLit_lt keyRelayUrl (by decide)
  · intro x hx; simp at hx; omega
  · exact strLit_lt t.relay_url h2
  · intro x hx; simp at hx; omega
  · exact strLit_lt keyHash (by decide)
  · intro x hx; simp at hx; omega
  · exact strLit_lt t.hash h3
  · intro x hx; simp at hx; omega
  · exact strLit_lt keyName (by decide)
  · intro x hx; simp at hx; omega
  · exact strLit_lt t.name h4
  · intro x hx; simp at hx; omega
  · exact strLit_lt keyCreatedAt (by decide)
  · intro x hx; simp at hx; omega
  · exact natLit_lt t.created_at
  · intro x hx; simp at hx; omega

/-- `ShareTicket::encode`: base64 of the JSON document's bytes. -/
def ShareTicket.encode (t : ShareTicket) : List Nat := b64encode (jsonOfTicket t)

/-- `ShareTicket::decode`: base64-decode, then JSON-parse; each failure maps
to `StreamError::InvalidHash`. -/
def ShareTicket.decode (l : List Nat) : Except SErr ShareTicket :=
  match b64decode l with
  | none => .error .invalidHash
  | some bs =>
      match parseTicket bs with
      | none => .error .invalidHash
      | some t => .ok t

/-- C8.  For every ticket whose field bytes are genuine bytes (< 256),
`decode (encode t)` succeeds with exactly `t`; and `decode` fails with the
invalid-hash error on any input that is not valid base64, and on any input
whose decoded bytes do not parse as a ticket document. -/
theorem ticket_codec_roundtrip (t : ShareTicket)
    (h1 : ∀ b ∈ t.node_id, b < 256) (h2 : ∀ b ∈ t.relay_url, b < 256)
    (h3 : ∀ b ∈ t.hash, b < 256) (h4 : ∀ b ∈ t.name, b < 256) :
    ShareTicket.decode (ShareTicket.encode t) = .ok t ∧
    (∀ l, b64decode l = none → ShareTicket.decode l = .error .invalidHash) ∧
    (∀ l bs, b64decode l = some bs → parseTicket bs = none →
      ShareTicket.decode l = .error .invalidHash) := by
  refine ⟨?_, ?_, ?_⟩
  · unfold ShareTicket.encode ShareTicket.decode
    rw [b64_roundtrip _ (jsonOfTicket_lt t h1 h2 h3 h4)]
    simp only [parseTicket_jsonOfTicket]
  · intro l hl
    unfold ShareTicket.decode
    rw [hl]
  · intro l bs hl hbs
    unfold ShareTicket.decode
    rw [hl]
    simp only [hbs]

/-- Witness for C8: a ticket with a control byte (10) and a quote (34) among
its field bytes, exercising the escape path. -/
theorem ticket_codec_roundtrip_witness :
    ShareTicket.decode (ShareTicket.encode ⟨[110], [], [104, 10], [34], 12⟩) =
      .ok ⟨[110], [], [104, 10], [34], 12⟩ ∧
    (∀ l, b64decode l = none →
      ShareTicket.decode l = .error .invalidHash) ∧
    (∀ l bs, b64decode l = some bs → parseTicket bs = none →
      ShareTicket.decode l = .error .invalidHash) :=
  ticket_codec_roundtrip ⟨[110], [], [104, 10], [34], 12⟩
    (by decide) (by decide) (by decide) (by decide)

end GhostDrive
